import Mathlib

/-!
Shallow embedding of the ingestion-to-delivery pipeline of
src/telegram_news_bot.py, together with theorems settling the claims about
its specification.

Modelling conventions:
* Python strings are modelled as List Char for the text-processing helpers
  (Python indexes and slices by code point); String is used for whole fields.
* str.lower is modelled character-wise with Char.toLower.
* Timestamps that the code stores and compares as ISO-8601 UTC strings of a
  fixed format compare exactly like the instants they denote; where the code
  does arithmetic on datetimes (get_sent_titles_today) timestamps are
  modelled as microseconds since the epoch, the resolution of datetime.
* difflib.SequenceMatcher.ratio (a standard-library external whose exact
  metric the spec leaves open) is a parameter of the similarity functions.
* Python's builtin hash() is salted per process (PYTHONHASHSEED), so it is a
  parameter of the embedding: each process supplies one function.
* The Telegram transport is external; its per-item outcome is an oracle
  parameter sendOk, matching send_telegram returning True or False (the
  function catches request exceptions and returns False, lines 212-230).
-/

namespace TNB

/-! ### Python string primitives -/

/-- Python str.lower, modelled character-wise (ASCII case folding). -/
def pyLower (l : List Char) : List Char := l.map Char.toLower

/-- Python str.strip: drop whitespace from both ends. -/
def pyStrip (l : List Char) : List Char :=
  ((l.dropWhile Char.isWhitespace).reverse.dropWhile Char.isWhitespace).reverse

/-- Python str.find: index of the first occurrence of pat inside hay, none when absent. -/
def strFind (hay pat : List Char) : Option Nat :=
  (List.range (hay.length + 1)).find? (fun i => pat.isPrefixOf (hay.drop i))

/-- Python substring membership test pat in hay. -/
def pyContains (hay pat : List Char) : Bool := (strFind hay pat).isSome

/-- html.escape(s, quote=False): replace the ampersand, less-than and
greater-than characters by their entities. -/
def htmlEscape : List Char → List Char
  | [] => []
  | c :: cs =>
    (if c = '&' then "&amp;".data else if c = '<' then "&lt;".data
     else if c = '>' then "&gt;".data else [c]) ++ htmlEscape cs

/-- Python str.replace, non-overlapping and left-to-right, with explicit fuel
so that the recursion is structural (each step consumes at least one
character, so fuel = length of the list suffices). -/
def replaceSubAux (pat repl : List Char) : Nat → List Char → List Char
  | 0, l => l
  | _ + 1, [] => []
  | fuel + 1, c :: cs =>
    if pat.isPrefixOf (c :: cs) then
      repl ++ replaceSubAux pat repl fuel (cs.drop (pat.length - 1))
    else
      c :: replaceSubAux pat repl fuel cs

/-- Python str.replace (pat nonempty in every use in the source). -/
def replaceSub (pat repl l : List Char) : List Char :=
  replaceSubAux pat repl l.length l

/-- Line 261-262: normalize trims the field. -/
def normalize (s : String) : String := String.mk (pyStrip s.data)

/-! ### find_context (lines 273-302) -/

/-- Lines 283-285: the context window around the match at idx, clipped to the
text bounds (Nat subtraction realizes max(0, idx - context_chars)). -/
def fcWindow (raw k : List Char) (idx cc : Nat) : List Char :=
  let start := idx - cc
  let stop := min raw.length (idx + k.length + cc)
  (raw.drop start).take (stop - start)

/-- Lines 287-290: wrap the first occurrence of k inside ctx in a bold tag. -/
def fcMarkup (ctx k : List Char) : List Char :=
  match strFind (pyLower ctx) k with
  | some ki =>
      ctx.take ki ++ "<b>".data ++ (ctx.drop ki).take k.length ++ "</b>".data
        ++ ctx.drop (ki + k.length)
  | none => ctx

/-- Lines 292-293: truncate to max_len characters, appending a marker. -/
def fcTrunc (ctx : List Char) (maxLen : Nat) : List Char :=
  if maxLen < ctx.length then ctx.take maxLen ++ ['…'] else ctx

/-- Line 294: escape for HTML, then re-enable the two bold markers. -/
def fcEscape (ctx : List Char) : List Char :=
  replaceSub "&lt;/b&gt;".data "</b>".data
    (replaceSub "&lt;b&gt;".data "<b>".data (htmlEscape ctx))

/-- Lines 279-294: scan the keywords in declared order over the summary. -/
def fcScan (raw low : List Char) (cc maxLen : Nat) :
    List (List Char) → Option (List Char × List Char)
  | [] => none
  | kw :: rest =>
    let k := pyLower kw
    match strFind low k with
    | none => fcScan raw low cc maxLen rest
    | some idx =>
        some (kw, fcEscape (fcTrunc (fcMarkup (fcWindow raw k idx cc) k) maxLen))

/-- Lines 273-302: find_context. The scan runs over the normalized summary;
when nothing matches there, the title is scanned and a sentinel snippet is
returned; otherwise the pair of empty strings. -/
def find_context (title summary : String) (keywords : List String)
    (context_chars max_len : Nat) : String × String :=
  match fcScan (pyStrip summary.data) (pyLower (pyStrip summary.data))
      context_chars max_len (keywords.map String.data) with
  | some (kw, ctx) => (String.mk kw, String.mk ctx)
  | none =>
    match keywords.find? (fun kw => pyContains (pyLower title.data) (pyLower kw.data)) with
    | some kw => (kw, "(ver título)")
    | none => ("", "")

/-- Lines 305-307: count how many keywords occur in the text. -/
def count_keywords (text : List Char) (keywords : List String) : Nat :=
  (keywords.filter (fun k => pyContains (pyLower text) (pyLower k.data))).length

/-! ### Similarity (lines 310-318) -/

/-- Lines 310-311: ratio of the lowered titles strictly above the threshold.
The ratio function itself (SequenceMatcher.ratio) is a parameter. -/
def is_similar (ratio : String → String → ℚ) (t1 t2 : String) (threshold : ℚ) : Bool :=
  decide (threshold < ratio (String.mk (pyLower t1.data)) (String.mk (pyLower t2.data)))

/-- Lines 314-318: any existing title similar to the candidate title. -/
def is_duplicate_by_similarity (ratio : String → String → ℚ) (title : String)
    (existing_titles : List String) (threshold : ℚ) : Bool :=
  existing_titles.any (fun e => is_similar ratio title e threshold)

/-! ### Data model -/

/-- The transient candidate item dict built by the fetchers (lines 585-596,
521-531, 402-412). -/
structure RItem where
  id : String
  title : String
  link : String
  source : String
  source_type : String
  published_at : Option String
  published_brt : String
  kw : String
  ctx : String
  relevance : Nat
deriving DecidableEq

/-- A row of the sent table (lines 114-124). sent_at is modelled in
microseconds since the epoch; the code stores ISO-8601 UTC strings whose
order coincides with these values. -/
structure SentRecord where
  id : String
  title : String
  link : String
  source : String
  source_type : String
  published_at : Option String
  sent_at : Nat
deriving DecidableEq

/-- Lines 132-138: exact-id membership test against the sent table. -/
def was_sent (db : List SentRecord) (item_id : String) : Bool :=
  db.any (fun r => r.id == item_id)

/-- Lines 141-157: INSERT OR IGNORE into a table whose primary key is id —
when a row with this id exists the statement is a no-op, otherwise the row is
appended, with sent_at the wall clock of the insert. -/
def mark_sent (db : List SentRecord) (it : RItem) (now : Nat) : List SentRecord :=
  if was_sent db it.id then db
  else db ++ [{ id := it.id, title := it.title, link := it.link, source := it.source,
                source_type := it.source_type, published_at := it.published_at,
                sent_at := now }]

def usecPerSec : Nat := 1000000

def usecPerDay : Nat := 86400 * usecPerSec

/-- Line 163: datetime.now(utc).replace(hour=0, minute=0, second=0) — the
hour, minute and second fields are zeroed but the microsecond field of the
current instant is kept. -/
def today_start (now : Nat) : Nat := now / usecPerDay * usecPerDay + now % usecPerSec

/-- Lines 160-167: titles of rows whose sent_at is at least today_start. -/
def get_sent_titles_today (db : List SentRecord) (now : Nat) : List String :=
  (db.filter (fun r => today_start now ≤ r.sent_at)).map (fun r => r.title)

/-! ### RSS processing (lines 555-598) -/

/-- A raw feed entry as the adapters expose it: title, link, summary, the
optional adapter-provided id, and the optional parsed publish time rendered
as an ISO-8601 UTC string. -/
structure Entry where
  title : String
  link : String
  summary : String
  idAttr : Option String
  published : Option String
deriving DecidableEq

/-- Lines 562-596: the body of the double loop of process_rss_items for one
entry; none when the entry is dropped. toBRT renders a publish time in the
local zone (external formatting, a parameter). -/
def processEntry (toBRT : String → String) (keywords blocklist : List String)
    (cutoff : String) (context_chars max_context_len : Nat)
    (source source_type : String) (e : Entry) : Option RItem :=
  let title := normalize e.title
  let link := normalize e.link
  let summary := normalize e.summary
  if title = "" ∨ link = "" then none
  else
    let blob := pyLower (title ++ "\n" ++ summary).data
    if ¬ keywords.any (fun k => pyContains blob (pyLower k.data)) then none
    else if blocklist.any (fun b => pyContains blob (pyLower b.data)) then none
    else if e.published.any (fun p => decide (p < cutoff)) then none
    else
      let kc := find_context title summary keywords context_chars max_context_len
      some { id := e.idAttr.getD link, title := title, link := link,
             source := source, source_type := source_type,
             published_at := e.published,
             published_brt := (e.published.map toBRT).getD "",
             kw := kc.1, ctx := kc.2,
             relevance := count_keywords blob keywords }

/-- Lines 555-598: process every entry of every fetched feed. A feed result
is (url, entries, source title), as returned by fetch_feed. -/
def process_rss_items (toBRT : String → String)
    (feed_results : List (String × List Entry × String))
    (keywords blocklist : List String) (cutoff : String)
    (context_chars max_context_len : Nat) (source_type : String) : List RItem :=
  (feed_results.map (fun fr =>
    fr.2.1.filterMap
      (processEntry toBRT keywords blocklist cutoff context_chars max_context_len
        fr.2.2 source_type))).flatten

/-- Line 519: the id of a DOU item. pyHash stands for the builtin hash(),
which is salted per process (PYTHONHASHSEED), hence a parameter: each process
supplies its own function. -/
def dou_item_id (pyHash : String → Int) (secao title link : String) : String :=
  "dou_" ++ secao ++ "_" ++ toString (pyHash (title ++ link))

/-! ### Ranking (line 692) -/

/-- Line 692 sort key: (relevance default 0, published_at or the empty
string). -/
def sortKey (it : RItem) : Nat × String := (it.relevance, it.published_at.getD "")

/-- Descending lexicographic comparison of sort keys: the key of b is at most
the key of a. A stable sort with this relation is exactly Python
list.sort(key=..., reverse=True), which sorts descending and keeps the
original order of elements with equal keys. -/
def sortRel (a b : RItem) : Prop :=
  (sortKey b).1 < (sortKey a).1 ∨
    ((sortKey b).1 = (sortKey a).1 ∧ (sortKey b).2 ≤ (sortKey a).2)

instance : DecidableRel sortRel := fun a b => by unfold sortRel; infer_instance

/-- Line 692: all_items.sort(key=lambda x: (relevance, published_at or ""),
reverse=True). The stable sort for a total preorder is unique, so the
structural insertionSort with sortRel is the code's sort. -/
def sortRun (l : List RItem) : List RItem := List.insertionSort sortRel l

/-! ### The delivery loop (lines 695-751) -/

/-- Run-wide constants and external oracles of one run. -/
structure RunCtx where
  ratio : String → String → ℚ
  threshold : ℚ
  sendOk : RItem → Bool
  maxItems : Nat
  now : Nat
  nowBrt : String

/-- The mutable state of the delivery loop. failed is a ghost counter: the
code logs each failed send (line 229) but keeps no counter for them. -/
structure LoopState where
  db : List SentRecord
  xlsx : List (List String)
  sentTitles : List String
  sent : Nat
  dup : Nat
  similar : Nat
  sleeps : Nat
  failed : Nat
deriving DecidableEq

/-- Lines 730-740: the row appended to the history workbook. -/
def xlsxRow (nowBrt : String) (it : RItem) : List String :=
  [nowBrt, it.published_brt, it.source, it.source_type, it.title, it.link,
   it.kw, it.ctx, toString it.relevance]

/-- Lines 700-745: the delivery loop. The cap check breaks out of the loop;
an exact-id or similarity hit skips the candidate, bumping a counter; on a
successful send the workbook row is appended, the row inserted, the title
added to the in-run comparison set, the sent counter advanced and one pacing
sleep performed; on a failed send nothing but the ghost counter changes. -/
def runLoop (c : RunCtx) : List RItem → LoopState → LoopState
  | [], s => s
  | it :: rest, s =>
    if c.maxItems ≤ s.sent then s
    else if was_sent s.db it.id then
      runLoop c rest { s with dup := s.dup + 1 }
    else if is_duplicate_by_similarity c.ratio it.title s.sentTitles c.threshold then
      runLoop c rest { s with similar := s.similar + 1 }
    else if c.sendOk it then
      runLoop c rest { s with
        xlsx := s.xlsx ++ [xlsxRow c.nowBrt it],
        db := mark_sent s.db it c.now,
        sentTitles := s.sentTitles ++ [it.title],
        sent := s.sent + 1,
        sleeps := s.sleeps + 1 }
    else
      runLoop c rest { s with failed := s.failed + 1 }

/-- Lines 747-751: the summary the run logs at the end — sent, duplicate and
similar counts. -/
def runSummary (s : LoopState) : Nat × Nat × Nat := (s.sent, s.dup, s.similar)

/-- Lines 695-699: the loop state at the start of the delivery phase, seeded
from the store. -/
def initState (db : List SentRecord) (now : Nat) : LoopState :=
  { db := db, xlsx := [], sentTitles := get_sent_titles_today db now,
    sent := 0, dup := 0, similar := 0, sleeps := 0, failed := 0 }

/-! ### Helper lemmas about the delivery loop -/

theorem was_sent_eq_false_iff {db : List SentRecord} {i : String} :
    was_sent db i = false ↔ ∀ r ∈ db, r.id ≠ i := by
  simp [was_sent]

theorem mark_sent_nodup {db : List SentRecord} (it : RItem) (now : Nat)
    (h : (db.map SentRecord.id).Nodup) :
    ((mark_sent db it now).map SentRecord.id).Nodup := by
  unfold mark_sent
  by_cases hw : was_sent db it.id = true
  · simp [hw, h]
  · have hw' := was_sent_eq_false_iff.mp (Bool.eq_false_iff.mpr hw)
    simp only [hw, if_false, Bool.false_eq_true, List.map_append, List.map_cons, List.map_nil]
    rw [List.nodup_append]
    refine ⟨h, List.nodup_singleton _, ?_⟩
    intro x hx
    simp only [List.mem_singleton]
    rcases List.mem_map.mp hx with ⟨r, hr, hrx⟩
    intro hxx
    exact hw' r hr (hxx ▸ hrx)

/-- The state reached by the successful-send branch of the loop body. -/
def sendStep (c : RunCtx) (it : RItem) (s : LoopState) : LoopState :=
  { s with
    xlsx := s.xlsx ++ [xlsxRow c.nowBrt it],
    db := mark_sent s.db it c.now,
    sentTitles := s.sentTitles ++ [it.title],
    sent := s.sent + 1,
    sleeps := s.sleeps + 1 }

theorem runLoop_cons_eq (c : RunCtx) (it : RItem) (rest : List RItem) (s : LoopState) :
    runLoop c (it :: rest) s =
      if c.maxItems ≤ s.sent then s
      else if was_sent s.db it.id then runLoop c rest { s with dup := s.dup + 1 }
      else if is_duplicate_by_similarity c.ratio it.title s.sentTitles c.threshold then
        runLoop c rest { s with similar := s.similar + 1 }
      else if c.sendOk it then runLoop c rest (sendStep c it s)
      else runLoop c rest { s with failed := s.failed + 1 } := rfl

theorem runLoop_db_nodup (c : RunCtx) (its : List RItem) (s : LoopState)
    (h : (s.db.map SentRecord.id).Nodup) :
    (((runLoop c its s).db).map SentRecord.id).Nodup := by
  induction its generalizing s with
  | nil => exact h
  | cons it rest ih =>
    rw [runLoop_cons_eq]
    by_cases h0 : c.maxItems ≤ s.sent
    · simpa [h0] using h
    by_cases h1 : was_sent s.db it.id = true
    · simpa [h0, h1] using ih { s with dup := s.dup + 1 } h
    by_cases h2 : is_duplicate_by_similarity c.ratio it.title s.sentTitles c.threshold = true
    · simpa [h0, h1, h2] using ih { s with similar := s.similar + 1 } h
    by_cases h3 : c.sendOk it = true
    · simpa [h0, h1, h2, h3] using ih (sendStep c it s) (mark_sent_nodup it c.now h)
    · simpa [h0, h1, h2, h3] using ih { s with failed := s.failed + 1 } h

theorem runLoop_sent_mono (c : RunCtx) (its : List RItem) (s : LoopState) :
    s.sent ≤ (runLoop c its s).sent := by
  induction its generalizing s with
  | nil => exact Nat.le_refl _
  | cons it rest ih =>
    rw [runLoop_cons_eq]
    by_cases h0 : c.maxItems ≤ s.sent
    · simp [h0]
    by_cases h1 : was_sent s.db it.id = true
    · simpa [h0, h1] using ih { s with dup := s.dup + 1 }
    by_cases h2 : is_duplicate_by_similarity c.ratio it.title s.sentTitles c.threshold = true
    · simpa [h0, h1, h2] using ih { s with similar := s.similar + 1 }
    by_cases h3 : c.sendOk it = true
    · have := ih (sendStep c it s)
      simp only [sendStep] at this
      simp [h0, h1, h2, h3, sendStep]
      omega
    · simpa [h0, h1, h2, h3] using ih { s with failed := s.failed + 1 }

theorem runLoop_stop (c : RunCtx) (its : List RItem) (s : LoopState)
    (h : c.maxItems ≤ s.sent) : runLoop c its s = s := by
  cases its with
  | nil => rfl
  | cons it rest => rw [runLoop_cons_eq, if_pos h]

theorem runLoop_sent_le (c : RunCtx) (its : List RItem) (s : LoopState)
    (h : s.sent ≤ c.maxItems) : (runLoop c its s).sent ≤ c.maxItems := by
  induction its generalizing s with
  | nil => exact h
  | cons it rest ih =>
    rw [runLoop_cons_eq]
    by_cases h0 : c.maxItems ≤ s.sent
    · simpa [h0] using h
    have hlt : s.sent < c.maxItems := Nat.lt_of_not_le h0
    by_cases h1 : was_sent s.db it.id = true
    · simpa [h0, h1] using ih { s with dup := s.dup + 1 } h
    by_cases h2 : is_duplicate_by_similarity c.ratio it.title s.sentTitles c.threshold = true
    · simpa [h0, h1, h2] using ih { s with similar := s.similar + 1 } h
    by_cases h3 : c.sendOk it = true
    · simpa [h0, h1, h2, h3] using ih (sendStep c it s) hlt
    · simpa [h0, h1, h2, h3] using ih { s with failed := s.failed + 1 } h

/-- The delivered count of a run capped at N is the minimum of N and the
delivered count of the same run with a cap M that is at least N: the two runs
agree branch for branch until the smaller cap is reached. -/
theorem runLoop_cap_min (c : RunCtx) (its : List RItem) (s : LoopState)
    (N M : Nat) (h1 : s.sent ≤ N) (h2 : N ≤ M) :
    (runLoop { c with maxItems := N } its s).sent
      = min ((runLoop { c with maxItems := M } its s).sent) N := by
  induction its generalizing s with
  | nil =>
    simp only [runLoop]
    omega
  | cons it rest ih =>
    by_cases hN : N ≤ s.sent
    · have hsN : s.sent = N := Nat.le_antisymm h1 hN
      rw [runLoop_stop { c with maxItems := N } _ _ (by simpa using hN)]
      have hmono := runLoop_sent_mono { c with maxItems := M } (it :: rest) s
      omega
    · have hlt : s.sent < N := Nat.lt_of_not_le hN
      have hltM : s.sent < M := Nat.lt_of_lt_of_le hlt h2
      rw [runLoop_cons_eq, runLoop_cons_eq]
      by_cases ha : was_sent s.db it.id = true
      · simpa [Nat.not_le.mpr hlt, Nat.not_le.mpr hltM, ha] using
          ih { s with dup := s.dup + 1 } h1
      by_cases hb : is_duplicate_by_similarity c.ratio it.title s.sentTitles c.threshold = true
      · simpa [Nat.not_le.mpr hlt, Nat.not_le.mpr hltM, ha, hb] using
          ih { s with similar := s.similar + 1 } h1
      by_cases hc : c.sendOk it = true
      · have := ih (sendStep { c with maxItems := N } it s) hlt
        simpa [Nat.not_le.mpr hlt, Nat.not_le.mpr hltM, ha, hb, hc, sendStep] using this
      · simpa [Nat.not_le.mpr hlt, Nat.not_le.mpr hltM, ha, hb, hc] using
          ih { s with failed := s.failed + 1 } h1

/-- The ghost failed counter influences no branch of the loop: replacing it
changes none of the sent, duplicate and similar counts. -/
theorem runLoop_failed_irrel (c : RunCtx) (its : List RItem) (s : LoopState) (n : Nat) :
    (runLoop c its { s with failed := n }).sent = (runLoop c its s).sent
    ∧ (runLoop c its { s with failed := n }).dup = (runLoop c its s).dup
    ∧ (runLoop c its { s with failed := n }).similar = (runLoop c its s).similar := by
  induction its generalizing s n with
  | nil => exact ⟨rfl, rfl, rfl⟩
  | cons it rest ih =>
    rw [runLoop_cons_eq, runLoop_cons_eq]
    by_cases h0 : c.maxItems ≤ s.sent
    · simp [h0]
    by_cases h1 : was_sent s.db it.id = true
    · simpa [h0, h1] using ih { s with dup := s.dup + 1 } n
    by_cases h2 : is_duplicate_by_similarity c.ratio it.title s.sentTitles c.threshold = true
    · simpa [h0, h1, h2] using ih { s with similar := s.similar + 1 } n
    by_cases h3 : c.sendOk it = true
    · have := ih (sendStep c it s) n
      simpa [h0, h1, h2, h3, sendStep] using this
    · have := ih { s with failed := s.failed + 1 } (n + 1)
      simpa [h0, h1, h2, h3] using this

/-- Every candidate the loop examines bumps exactly one of the four counters,
so the counter total grows by at most the number of candidates. -/
theorem runLoop_counter_total (c : RunCtx) (its : List RItem) (s : LoopState) :
    (runLoop c its s).sent + (runLoop c its s).dup + (runLoop c its s).similar
        + (runLoop c its s).failed
      ≤ s.sent + s.dup + s.similar + s.failed + its.length := by
  induction its generalizing s with
  | nil =>
    rw [show runLoop c [] s = s from rfl]
    omega
  | cons it rest ih =>
    rw [runLoop_cons_eq]
    by_cases h0 : c.maxItems ≤ s.sent
    · simp [h0]
    by_cases h1 : was_sent s.db it.id = true
    · have := ih { s with dup := s.dup + 1 }
      simp only at this
      simp [h0, h1]
      omega
    by_cases h2 : is_duplicate_by_similarity c.ratio it.title s.sentTitles c.threshold = true
    · have := ih { s with similar := s.similar + 1 }
      simp only at this
      simp [h0, h1, h2]
      omega
    by_cases h3 : c.sendOk it = true
    · have := ih (sendStep c it s)
      simp only [sendStep] at this
      simp [h0, h1, h2, h3, sendStep]
      omega
    · have := ih { s with failed := s.failed + 1 }
      simp only at this
      simp [h0, h1, h2, h3]
      omega

/-! ### Concrete scaffolding for witnesses and counterexamples -/

/-- A similarity oracle for concrete runs whose ratio is always zero. -/
def ratioZero : String → String → ℚ := fun _ _ => 0

/-- A plain concrete candidate item. -/
def mkItem (i t : String) : RItem :=
  { id := i, title := t, link := "https://example.org/" ++ i, source := "Fonte",
    source_type := "rss", published_at := none, published_brt := "", kw := "kw",
    ctx := "", relevance := 1 }

def c3rec : SentRecord :=
  { id := "n1", title := "T1", link := "L", source := "S", source_type := "rss",
    published_at := none, sent_at := 100 }

def c3ctx : RunCtx :=
  { ratio := ratioZero, threshold := 1, sendOk := fun _ => true, maxItems := 30,
    now := 1000, nowBrt := "01/01 00:00" }

def c4ctx : RunCtx :=
  { ratio := ratioZero, threshold := 1, sendOk := fun _ => true, maxItems := 2,
    now := 0, nowBrt := "" }

def c4items : List RItem := [mkItem "w1" "Alpha", mkItem "w2" "Beta", mkItem "w3" "Gamma"]

def c9ctx : RunCtx :=
  { ratio := ratioZero, threshold := 1, sendOk := fun _ => false, maxItems := 10,
    now := 0, nowBrt := "" }

def c10ctx : RunCtx :=
  { ratio := ratioZero, threshold := 1, sendOk := fun _ => false, maxItems := 7,
    now := 3, nowBrt := "" }

/-- Process-1 and process-2 instantiations of the salted builtin hash; any two
processes may disagree like this since PYTHONHASHSEED differs. -/
def pHash1 : String → Int := fun _ => 0

def pHash2 : String → Int := fun _ => 1

/-- The same DOU publication as fetched by a given process (lines 519-531 and
671-676: the snippet is the summary prefix, relevance is the constant 1). -/
def douItemWith (pyHash : String → Int) : RItem :=
  { id := dou_item_id pyHash "1" "Portaria sobre Zanatta" "https://www.in.gov.br/web/dou/p1",
    title := "Portaria sobre Zanatta", link := "https://www.in.gov.br/web/dou/p1",
    source := "DOU Seção 1 - Ministério", source_type := "dou",
    published_at := some "2025-06-02T15:00:00+00:00", published_brt := "02/06 12:00",
    kw := "zanatta", ctx := "Resumo", relevance := 1 }

def c2now1 : Nat := 20241 * usecPerDay + 15 * 3600 * usecPerSec

def c2now2 : Nat := c2now1 + usecPerDay

def c2ctx1 : RunCtx :=
  { ratio := ratioZero, threshold := 1, sendOk := fun _ => true, maxItems := 40,
    now := c2now1, nowBrt := "" }

def c2ctx2 : RunCtx := { c2ctx1 with now := c2now2 }

def c5rec : SentRecord :=
  { id := "early", title := "Titulo da madrugada", link := "L", source := "S",
    source_type := "rss", published_at := none, sent_at := 20000 * usecPerDay + 1 }

def c5now : Nat := 20000 * usecPerDay + 12 * 3600 * usecPerSec + 500

/-! ### Claim theorems -/

/-- C3: a second insert attempt with an id already present in the sent store
is a no-op and never an error; inserting preserves distinctness of ids; and
along any run of the delivery loop no two rows of the store ever share an
id. -/
theorem C3_sent_id_unique :
    (∀ (db : List SentRecord) (it : RItem) (now : Nat),
        was_sent db it.id = true → mark_sent db it now = db)
    ∧ (∀ (db : List SentRecord) (it : RItem) (now : Nat),
        (db.map SentRecord.id).Nodup → ((mark_sent db it now).map SentRecord.id).Nodup)
    ∧ (∀ (c : RunCtx) (its : List RItem) (s : LoopState),
        (s.db.map SentRecord.id).Nodup →
        (((runLoop c its s).db).map SentRecord.id).Nodup) := by
  refine ⟨?_, ?_, ?_⟩
  · intro db it now h
    unfold mark_sent
    rw [if_pos h]
  · intro db it now h
    exact mark_sent_nodup it now h
  · intro c its s h
    exact runLoop_db_nodup c its s h

/-- Witness for C3 at concrete inputs: re-inserting the stored id changes
nothing, a fresh insert keeps ids distinct, and a concrete run preserves the
invariant. -/
theorem C3_witness :
    mark_sent [c3rec] (mkItem "n1" "T1") 200 = [c3rec]
    ∧ ((mark_sent [c3rec] (mkItem "n2" "T2") 200).map SentRecord.id).Nodup
    ∧ (((runLoop c3ctx [mkItem "n2" "T2"] (initState [c3rec] 1000)).db).map
        SentRecord.id).Nodup :=
  ⟨C3_sent_id_unique.1 [c3rec] (mkItem "n1" "T1") 200 (by decide),
   C3_sent_id_unique.2.1 [c3rec] (mkItem "n2" "T2") 200 (by decide),
   C3_sent_id_unique.2.2 c3ctx [mkItem "n2" "T2"] (initState [c3rec] 1000) (by decide)⟩

/-- C4: the delivered count of a run never exceeds the configured cap; once
the cap is reached the remaining candidates are not considered at all (the
loop state is returned untouched); and whenever the uncapped run (modelled by
a cap M at least as large) would deliver at least the cap, the capped run
delivers exactly the cap. -/
theorem C4_cap_respected :
    (∀ (c : RunCtx) (its : List RItem) (s : LoopState),
        s.sent = 0 → (runLoop c its s).sent ≤ c.maxItems)
    ∧ (∀ (c : RunCtx) (its : List RItem) (s : LoopState),
        c.maxItems ≤ s.sent → runLoop c its s = s)
    ∧ (∀ (c : RunCtx) (its : List RItem) (s : LoopState) (M : Nat),
        s.sent = 0 → c.maxItems ≤ M →
        c.maxItems ≤ (runLoop { c with maxItems := M } its s).sent →
        (runLoop c its s).sent = c.maxItems) := by
  refine ⟨?_, ?_, ?_⟩
  · intro c its s h
    exact runLoop_sent_le c its s (by omega)
  · intro c its s h
    exact runLoop_stop c its s h
  · intro c its s M h0 hM helig
    have hc : ({ c with maxItems := c.maxItems } : RunCtx) = c := rfl
    have := runLoop_cap_min c its s c.maxItems M (by omega) hM
    rw [hc] at this
    omega

/-- Witness for C4 at concrete inputs: three eligible candidates and cap two
deliver exactly two, and a state already at the cap is returned untouched. -/
theorem C4_witness :
    (runLoop c4ctx c4items (initState [] 0)).sent ≤ c4ctx.maxItems
    ∧ runLoop c4ctx c4items { initState [] 0 with sent := 2 }
        = { initState [] 0 with sent := 2 }
    ∧ (runLoop c4ctx c4items (initState [] 0)).sent = c4ctx.maxItems :=
  ⟨C4_cap_respected.1 c4ctx c4items (initState [] 0) (by decide),
   C4_cap_respected.2.1 c4ctx c4items { initState [] 0 with sent := 2 } (by decide),
   C4_cap_respected.2.2 c4ctx c4items (initState [] 0) 4 (by decide) (by decide) (by decide)⟩

/-- C7: an entry whose combined lowercase title-and-summary text contains a
must-have keyword and also a blocklist term is rejected by process_rss_items
regardless of the must-have match. -/
theorem C7_blocklist_precedence :
    ∀ (toBRT : String → String) (keywords blocklist : List String) (cutoff : String)
      (cc ml : Nat) (source st : String) (e : Entry),
      (∃ k ∈ keywords,
          pyContains (pyLower ((normalize e.title) ++ "\n" ++ (normalize e.summary)).data)
            (pyLower k.data) = true) →
      (∃ b ∈ blocklist,
          pyContains (pyLower ((normalize e.title) ++ "\n" ++ (normalize e.summary)).data)
            (pyLower b.data) = true) →
      processEntry toBRT keywords blocklist cutoff cc ml source st e = none := by
  intro toBRT kws bl cutoff cc ml src st e h1 h2
  unfold processEntry
  by_cases h0 : normalize e.title = "" ∨ normalize e.link = ""
  · simp [h0]
  · have hk : (kws.any fun k =>
        pyContains (pyLower ((normalize e.title) ++ "\n" ++ (normalize e.summary)).data)
          (pyLower k.data)) = true := by
      rw [List.any_eq_true]
      rcases h1 with ⟨k, hk1, hk2⟩
      exact ⟨k, hk1, hk2⟩
    have hb : (bl.any fun b =>
        pyContains (pyLower ((normalize e.title) ++ "\n" ++ (normalize e.summary)).data)
          (pyLower b.data)) = true := by
      rw [List.any_eq_true]
      rcases h2 with ⟨b, hb1, hb2⟩
      exact ⟨b, hb1, hb2⟩
    rw [if_neg h0, if_neg (not_not_intro hk), if_pos hb]

/-- Witness for C7 at concrete inputs: the keyword and a blocked term occur
together and the entry is dropped. -/
theorem C7_witness :
    processEntry (fun p => p) ["câmara"] ["futebol"] "" 10 200 "Fonte" "rss"
      { title := "Câmara aprova verba", link := "https://example.org/x",
        summary := "Time de futebol recebe verba da câmara", idAttr := none,
        published := none } = none :=
  C7_blocklist_precedence (fun p => p) ["câmara"] ["futebol"] "" 10 200 "Fonte" "rss"
    { title := "Câmara aprova verba", link := "https://example.org/x",
      summary := "Time de futebol recebe verba da câmara", idAttr := none,
      published := none } (by decide) (by decide)

/-- C9 counterexample: the summary the run logs consists of the sent,
duplicate and similar counts only; two runs with different numbers of failed
sends (one failing candidate versus no candidate at all) produce identical
summaries, so the summary contains no failed count, contrary to the claim. -/
theorem C9_summary_lacks_failed_cex :
    runSummary (runLoop c9ctx [mkItem "f1" "Falha"] (initState [] 0))
        = runSummary (runLoop c9ctx [] (initState [] 0))
    ∧ (runLoop c9ctx [mkItem "f1" "Falha"] (initState [] 0)).failed
        ≠ (runLoop c9ctx [] (initState [] 0)).failed := by decide

/-- C9 amended: a delivery failure for a single item never aborts the run —
the loop continues with the next candidate and the logged summary (sent,
duplicate, similar; failures are logged per item but not counted in the
summary) is exactly that of the run without the failing item; and every run
terminates with summary counters that grow by at most one per candidate. -/
theorem C9_failure_never_aborts :
    (∀ (c : RunCtx) (it : RItem) (rest : List RItem) (s : LoopState),
        s.sent < c.maxItems → was_sent s.db it.id = false →
        is_duplicate_by_similarity c.ratio it.title s.sentTitles c.threshold = false →
        c.sendOk it = false →
        runSummary (runLoop c (it :: rest) s) = runSummary (runLoop c rest s))
    ∧ (∀ (c : RunCtx) (its : List RItem) (s : LoopState),
        (runLoop c its s).sent + (runLoop c its s).dup + (runLoop c its s).similar
            + (runLoop c its s).failed
          ≤ s.sent + s.dup + s.similar + s.failed + its.length) := by
  constructor
  · intro c it rest s h1 h2 h3 h4
    rw [runLoop_cons_eq]
    rw [if_neg (Nat.not_le.mpr h1)]
    simp only [h2, Bool.false_eq_true, if_false, h3, h4]
    have h := runLoop_failed_irrel c rest s (s.failed + 1)
    simp [runSummary, h.1, h.2.1, h.2.2]
  · intro c its s
    exact runLoop_counter_total c its s

/-- Witness for C9 at concrete inputs: with a failing transport the one-item
run has the same summary as the empty run, and the counter total of a
concrete run is bounded by its candidate count. -/
theorem C9_witness :
    runSummary (runLoop c10ctx [mkItem "g1" "Um"] (initState [] 3))
        = runSummary (runLoop c10ctx [] (initState [] 3))
    ∧ (runLoop c9ctx c4items (initState [] 0)).sent
          + (runLoop c9ctx c4items (initState [] 0)).dup
          + (runLoop c9ctx c4items (initState [] 0)).similar
          + (runLoop c9ctx c4items (initState [] 0)).failed
        ≤ (initState [] 0).sent + (initState [] 0).dup + (initState [] 0).similar
          + (initState [] 0).failed + c4items.length :=
  ⟨C9_failure_never_aborts.1 c10ctx (mkItem "g1" "Um") [] (initState [] 3)
      (by decide) (by decide) (by decide) (by decide),
   C9_failure_never_aborts.2 c9ctx c4items (initState [] 0)⟩

/-- C10: when a candidate passes the cap, exact-id and similarity checks but
its send fails, the loop continues with the remaining candidates in a state
that differs from the previous one only in the ghost failed counter: no store
row, no workbook row, no comparison title, no advance of the sent counter
that feeds the cap, and no pacing sleep. -/
theorem C10_failed_send_no_effect :
    ∀ (c : RunCtx) (it : RItem) (rest : List RItem) (s : LoopState),
      s.sent < c.maxItems →
      was_sent s.db it.id = false →
      is_duplicate_by_similarity c.ratio it.title s.sentTitles c.threshold = false →
      c.sendOk it = false →
      runLoop c (it :: rest) s = runLoop c rest { s with failed := s.failed + 1 }
      ∧ ({ s with failed := s.failed + 1 } : LoopState).db = s.db
      ∧ ({ s with failed := s.failed + 1 } : LoopState).xlsx = s.xlsx
      ∧ ({ s with failed := s.failed + 1 } : LoopState).sentTitles = s.sentTitles
      ∧ ({ s with failed := s.failed + 1 } : LoopState).sent = s.sent
      ∧ ({ s with failed := s.failed + 1 } : LoopState).sleeps = s.sleeps := by
  intro c it rest s h1 h2 h3 h4
  refine ⟨?_, rfl, rfl, rfl, rfl, rfl⟩
  rw [runLoop_cons_eq]
  rw [if_neg (Nat.not_le.mpr h1)]
  simp only [h2, Bool.false_eq_true, if_false, h3, h4]

/-- Witness for C10 at concrete inputs. -/
theorem C10_witness :
    runLoop c10ctx [mkItem "h1" "Dois", mkItem "h2" "Tres"] (initState [] 3)
        = runLoop c10ctx [mkItem "h2" "Tres"]
            { initState [] 3 with failed := (initState [] 3).failed + 1 }
    ∧ ({ initState [] 3 with failed := (initState [] 3).failed + 1 } : LoopState).db
        = (initState [] 3).db
    ∧ ({ initState [] 3 with failed := (initState [] 3).failed + 1 } : LoopState).xlsx
        = (initState [] 3).xlsx
    ∧ ({ initState [] 3 with failed := (initState [] 3).failed + 1 } : LoopState).sentTitles
        = (initState [] 3).sentTitles
    ∧ ({ initState [] 3 with failed := (initState [] 3).failed + 1 } : LoopState).sent
        = (initState [] 3).sent
    ∧ ({ initState [] 3 with failed := (initState [] 3).failed + 1 } : LoopState).sleeps
        = (initState [] 3).sleeps :=
  C10_failed_send_no_effect c10ctx (mkItem "h1" "Dois") [mkItem "h2" "Tres"]
    (initState [] 3) (by decide) (by decide) (by decide) (by decide)

/-- C2: the DOU item id of line 519 is built from the builtin salted hash of
title and link, so two processes derive different ids for the same
publication; with the store carried over unchanged into a second run on a
later day, the exact-id check misses and the very same publication is
delivered again — the second run delivers one item, not zero. -/
theorem C2_second_run_delivers_again :
    (douItemWith pHash1).title = (douItemWith pHash2).title
    ∧ (douItemWith pHash1).link = (douItemWith pHash2).link
    ∧ (douItemWith pHash1).id ≠ (douItemWith pHash2).id
    ∧ (runLoop c2ctx1 [douItemWith pHash1] (initState [] c2now1)).sent = 1
    ∧ (runLoop c2ctx2 [douItemWith pHash2]
        (initState (runLoop c2ctx1 [douItemWith pHash1] (initState [] c2now1)).db
          c2now2)).sent = 1 := by decide

/-! ### Lemmas about the context extractor -/

theorem strFind_eq_some {hay pat : List Char} {i : Nat}
    (h : strFind hay pat = some i) :
    pat.isPrefixOf (hay.drop i) = true ∧ i ≤ hay.length := by
  unfold strFind at h
  constructor
  · have hx := List.find?_some h
    simpa using hx
  · have hm := List.mem_of_find?_eq_some h
    have := List.mem_range.mp hm
    omega

theorem pyContains_false_strFind {hay pat : List Char}
    (h : pyContains hay pat = false) : strFind hay pat = none := by
  unfold pyContains at h
  cases hfind : strFind hay pat with
  | none => rfl
  | some i => rw [hfind] at h; simp at h

theorem fcScan_first (raw low : List Char) (cc ml : Nat)
    (pre post : List (List Char)) (kw : List Char) (idx : Nat)
    (hpre : ∀ k ∈ pre, strFind low (pyLower k) = none)
    (hkw : strFind low (pyLower kw) = some idx) :
    fcScan raw low cc ml (pre ++ kw :: post)
      = some (kw,
          fcEscape (fcTrunc (fcMarkup (fcWindow raw (pyLower kw) idx cc) (pyLower kw)) ml)) := by
  induction pre with
  | nil => simp [fcScan, hkw]
  | cons p ps ih =>
    have hp := hpre p (by simp)
    rw [List.cons_append]
    simp only [fcScan, hp]
    exact ih (fun k hk => hpre k (by simp [hk]))

theorem fcScan_none (raw low : List Char) (cc ml : Nat) (kws : List (List Char))
    (h : ∀ k ∈ kws, strFind low (pyLower k) = none) :
    fcScan raw low cc ml kws = none := by
  induction kws with
  | nil => rfl
  | cons p ps ih =>
    have hp := h p (by simp)
    simp only [fcScan, hp]
    exact ih (fun k hk => h k (by simp [hk]))

theorem find?_first {α : Type} (p : α → Bool) (pre post : List α) (x : α)
    (hpre : ∀ a ∈ pre, p a = false) (hx : p x = true) :
    (pre ++ x :: post).find? p = some x := by
  induction pre with
  | nil => simp [hx]
  | cons a as ih =>
    rw [List.cons_append, List.find?_cons_of_neg _ (by simp [hpre a (by simp)])]
    exact ih (fun b hb => hpre b (by simp [hb]))

theorem fcWindow_length (raw k : List Char) (idx cc : Nat) :
    (fcWindow raw k idx cc).length ≤ cc + k.length + cc := by
  unfold fcWindow
  simp only [List.length_take, List.length_drop]
  omega

theorem pyLower_fcWindow (raw k : List Char) (idx cc : Nat) :
    pyLower (fcWindow raw k idx cc) = fcWindow (pyLower raw) k idx cc := by
  unfold fcWindow pyLower
  simp [List.map_take, List.map_drop]

theorem fcWindow_contains (low k : List Char) (idx cc : Nat)
    (h : k.isPrefixOf (low.drop idx) = true) :
    pyContains (fcWindow low k idx cc) k = true := by
  have hk : k <+: low.drop idx := List.isPrefixOf_iff_prefix.mp h
  have hklen : k.length ≤ low.length - idx := by
    have := hk.length_le
    simpa using this
  by_cases hk0 : k = []
  · subst hk0
    unfold pyContains strFind
    rw [List.find?_isSome]
    exact ⟨0, List.mem_range.mpr (by omega), by simp⟩
  · have hk1 : 1 ≤ k.length := by
      cases k with
      | nil => exact absurd rfl hk0
      | cons a as => simp
    have hidxlen : idx + k.length ≤ low.length := by omega
    set start := idx - cc with hstart
    set stop := min low.length (idx + k.length + cc) with hstop
    have hjw : k.isPrefixOf ((fcWindow low k idx cc).drop (idx - start)) = true := by
      have hdt : (fcWindow low k idx cc).drop (idx - start)
          = (low.drop idx).take (stop - idx) := by
        unfold fcWindow
        rw [List.drop_take, List.drop_drop]
        have h1 : start + (idx - start) = idx := by omega
        have h2 : stop - start - (idx - start) = stop - idx := by omega
        rw [h1, h2]
      rw [hdt]
      have hkeq : k = (low.drop idx).take k.length :=
        List.prefix_iff_eq_take.mp hk
      have hle : k.length ≤ stop - idx := by omega
      rw [ List.isPrefixOf_iff_prefix, List.prefix_iff_eq_take]
      rw [List.take_take]
      rw [Nat.min_eq_left hle] at *
      exact hkeq
    unfold pyContains strFind
    rw [List.find?_isSome]
    refine ⟨idx - start, List.mem_range.mpr ?_, hjw⟩
    have hwl : (fcWindow low k idx cc).length = min (stop - start) (low.length - start) := by
      unfold fcWindow
      simp [List.length_take, List.length_drop]
    omega

theorem fcMarkup_emphasis (ctx k : List Char)
    (h : pyContains (pyLower ctx) k = true) :
    ∃ w, pyLower w = k
      ∧ ∃ s t, s ++ ("<b>".data ++ w ++ "</b>".data) ++ t = fcMarkup ctx k := by
  rcases Option.isSome_iff_exists.mp h with ⟨ki, hki⟩
  have hpre := (strFind_eq_some hki).1
  refine ⟨(ctx.drop ki).take k.length, ?_, ctx.take ki, ctx.drop (ki + k.length), ?_⟩
  · have hkeq : k = ((pyLower ctx).drop ki).take k.length :=
      List.prefix_iff_eq_take.mp (List.isPrefixOf_iff_prefix.mp hpre)
    unfold pyLower
    rw [List.map_take, List.map_drop]
    exact hkeq.symm
  · unfold fcMarkup
    rw [hki]
    simp [List.append_assoc]

/-! ### Lemmas about escaping and marker re-enabling (for C6) -/

theorem replaceSubAux_fuel (pat repl : List Char) :
    ∀ (n m : Nat) (l : List Char), l.length ≤ n → l.length ≤ m →
      replaceSubAux pat repl n l = replaceSubAux pat repl m l := by
  intro n
  induction n with
  | zero =>
    intro m l hn _
    have hl : l = [] := List.eq_nil_of_length_eq_zero (Nat.le_zero.mp hn)
    subst hl
    cases m <;> rfl
  | succ n ih =>
    intro m l hn hm
    cases l with
    | nil => cases m <;> rfl
    | cons c cs =>
      cases m with
      | zero => simp at hm
      | succ m =>
        simp only [replaceSubAux]
        by_cases hp : pat.isPrefixOf (c :: cs) = true
        · rw [if_pos hp, if_pos hp]
          congr 1
          apply ih
          · have := List.length_drop (pat.length - 1) cs
            simp only [List.length_cons] at hn
            omega
          · have := List.length_drop (pat.length - 1) cs
            simp only [List.length_cons] at hm
            omega
        · rw [if_neg hp, if_neg hp]
          congr 1
          apply ih
          · simp only [List.length_cons] at hn
            omega
          · simp only [List.length_cons] at hm
            omega

theorem replaceSub_cons (pat repl : List Char) (c : Char) (cs : List Char) :
    replaceSub pat repl (c :: cs)
      = if pat.isPrefixOf (c :: cs) then
          repl ++ replaceSub pat repl (cs.drop (pat.length - 1))
        else c :: replaceSub pat repl cs := by
  unfold replaceSub
  simp only [List.length_cons, replaceSubAux]
  by_cases hp : pat.isPrefixOf (c :: cs) = true
  · rw [if_pos hp, if_pos hp]
    congr 1
    apply replaceSubAux_fuel
    · have := List.length_drop (pat.length - 1) cs
      omega
    · exact Nat.le_refl _
  · rw [if_neg hp, if_neg hp]

theorem replaceSub_cons_skip (pat repl : List Char) (c : Char) (cs : List Char)
    (h : pat.isPrefixOf (c :: cs) = false) :
    replaceSub pat repl (c :: cs) = c :: replaceSub pat repl cs := by
  rw [replaceSub_cons, if_neg (by simp [h])]

theorem isPrefixOf_amp_head (pt : List Char) (c : Char) (cs : List Char) (hc : c ≠ '&') :
    (('&' :: pt).isPrefixOf (c :: cs)) = false := by
  have hb : ('&' == c) = false := beq_eq_false_iff_ne.mpr (Ne.symm hc)
  simp [List.isPrefixOf, hb]

theorem replaceSub_amp_free (pat repl l pt : List Char)
    (hpat : pat = '&' :: pt) (hl : '&' ∉ l) :
    replaceSub pat repl l = l := by
  induction l with
  | nil => rfl
  | cons c cs ih =>
    have hc : c ≠ '&' := fun h => hl (h ▸ List.mem_cons_self _ _)
    rw [replaceSub_cons_skip _ _ _ _ (hpat ▸ isPrefixOf_amp_head pt c cs hc)]
    rw [ih (fun h => hl (List.mem_cons_of_mem _ h))]

theorem replaceSub_at_match (pat repl rest pt : List Char) (hpat : pat = '&' :: pt) :
    replaceSub pat repl (pat ++ rest) = repl ++ replaceSub pat repl rest := by
  subst hpat
  rw [List.cons_append]
  rw [replaceSub_cons,
    if_pos (List.isPrefixOf_iff_prefix.mpr ⟨rest, by rw [List.cons_append]⟩)]
  congr 2
  simp only [List.length_cons, Nat.add_sub_cancel]
  exact List.drop_left pt rest

theorem replaceSub_pre (pat repl A rest pt : List Char)
    (hpat : pat = '&' :: pt) (hA : '&' ∉ A) :
    replaceSub pat repl (A ++ (pat ++ rest)) = A ++ (repl ++ replaceSub pat repl rest) := by
  induction A with
  | nil => simpa using replaceSub_at_match pat repl rest pt hpat
  | cons c cs ih =>
    have hc : c ≠ '&' := fun h => hA (h ▸ List.mem_cons_self _ _)
    rw [List.cons_append, replaceSub_cons_skip _ _ _ _ (hpat ▸ isPrefixOf_amp_head pt c _ hc)]
    rw [ih (fun h => hA (List.mem_cons_of_mem _ h)), List.cons_append]

theorem obData : ("&lt;b&gt;" : String).data
    = ['&', 'l', 't', ';', 'b', '&', 'g', 't', ';'] := by decide

theorem cbData : ("&lt;/b&gt;" : String).data
    = ['&', 'l', 't', ';', '/', 'b', '&', 'g', 't', ';'] := by decide

/-- The ampersand-led escaped opening marker never matches inside the escaped
closing marker followed by ampersand-free text. -/
theorem replaceSub_OB_skips_CB (repl rest : List Char) (hrest : '&' ∉ rest) :
    replaceSub ("&lt;b&gt;" : String).data repl (("&lt;/b&gt;" : String).data ++ rest)
      = ("&lt;/b&gt;" : String).data ++ rest := by
  rw [obData, cbData]
  simp only [List.cons_append, List.nil_append]
  rw [replaceSub_cons_skip _ _ _ _ (by simp [List.isPrefixOf])]
  rw [replaceSub_cons_skip _ _ _ _ (by simp [List.isPrefixOf])]
  rw [replaceSub_cons_skip _ _ _ _ (by simp [List.isPrefixOf])]
  rw [replaceSub_cons_skip _ _ _ _ (by simp [List.isPrefixOf])]
  rw [replaceSub_cons_skip _ _ _ _ (by simp [List.isPrefixOf])]
  rw [replaceSub_cons_skip _ _ _ _ (by simp [List.isPrefixOf])]
  rw [replaceSub_cons_skip _ _ _ _ (by simp [List.isPrefixOf])]
  rw [replaceSub_cons_skip _ _ _ _ (by simp [List.isPrefixOf])]
  rw [replaceSub_cons_skip _ _ _ _ (by simp [List.isPrefixOf])]
  rw [replaceSub_cons_skip _ _ _ _ (by simp [List.isPrefixOf])]
  rw [replaceSub_amp_free _ _ rest _ obData hrest]

theorem replaceSub_OB_mid (repl w B : List Char) (hw : '&' ∉ w) (hB : '&' ∉ B) :
    replaceSub ("&lt;b&gt;" : String).data repl (w ++ (("&lt;/b&gt;" : String).data ++ B))
      = w ++ (("&lt;/b&gt;" : String).data ++ B) := by
  induction w with
  | nil => simpa using replaceSub_OB_skips_CB repl B hB
  | cons c cs ih =>
    have hc : c ≠ '&' := fun h => hw (h ▸ List.mem_cons_self _ _)
    rw [List.cons_append, replaceSub_cons_skip _ _ _ _ (obData ▸ isPrefixOf_amp_head _ c _ hc)]
    rw [ih (fun h => hw (List.mem_cons_of_mem _ h))]

theorem htmlEscape_append (a b : List Char) :
    htmlEscape (a ++ b) = htmlEscape a ++ htmlEscape b := by
  induction a with
  | nil => rfl
  | cons c cs ih => simp [htmlEscape, ih, List.append_assoc]

theorem htmlEscape_clean (l : List Char) (h : ∀ c ∈ l, c ≠ '&' ∧ c ≠ '<' ∧ c ≠ '>') :
    htmlEscape l = l := by
  induction l with
  | nil => rfl
  | cons c cs ih =>
    rcases h c (List.mem_cons_self _ _) with ⟨h1, h2, h3⟩
    simp only [htmlEscape, if_neg h1, if_neg h2, if_neg h3]
    rw [ih (fun d hd => h d (List.mem_cons_of_mem _ hd))]
    rfl

theorem htmlEscape_ob : htmlEscape ("<b>" : String).data = ("&lt;b&gt;" : String).data := by
  decide

theorem htmlEscape_cb : htmlEscape ("</b>" : String).data = ("&lt;/b&gt;" : String).data := by
  decide

theorem fcEscape_clean (l : List Char) (h : ∀ c ∈ l, c ≠ '&' ∧ c ≠ '<' ∧ c ≠ '>') :
    fcEscape l = l := by
  have hamp : '&' ∉ l := fun hm => (h _ hm).1 rfl
  unfold fcEscape
  rw [htmlEscape_clean l h]
  rw [replaceSub_amp_free _ _ l _ obData hamp]
  rw [replaceSub_amp_free _ _ l _ cbData hamp]

/-- On a marked window whose three plain pieces are free of markup
characters, escaping followed by re-enabling the two bold markers restores
exactly the marked window. -/
theorem fcEscape_marked (A w B : List Char)
    (hA : ∀ c ∈ A, c ≠ '&' ∧ c ≠ '<' ∧ c ≠ '>')
    (hw : ∀ c ∈ w, c ≠ '&' ∧ c ≠ '<' ∧ c ≠ '>')
    (hB : ∀ c ∈ B, c ≠ '&' ∧ c ≠ '<' ∧ c ≠ '>') :
    fcEscape (A ++ "<b>".data ++ w ++ "</b>".data ++ B)
      = A ++ "<b>".data ++ w ++ "</b>".data ++ B := by
  have hAamp : '&' ∉ A := fun hm => (hA _ hm).1 rfl
  have hwamp : '&' ∉ w := fun hm => (hw _ hm).1 rfl
  have hBamp : '&' ∉ B := fun hm => (hB _ hm).1 rfl
  unfold fcEscape
  rw [htmlEscape_append, htmlEscape_append, htmlEscape_append, htmlEscape_append]
  rw [htmlEscape_clean A hA, htmlEscape_clean w hw, htmlEscape_clean B hB,
    htmlEscape_ob, htmlEscape_cb]
  have e1 : replaceSub ("&lt;b&gt;" : String).data ("<b>" : String).data
      (A ++ ("&lt;b&gt;" : String).data ++ w ++ ("&lt;/b&gt;" : String).data ++ B)
      = A ++ ("<b>" : String).data ++ w ++ ("&lt;/b&gt;" : String).data ++ B := by
    have h1 := replaceSub_pre ("&lt;b&gt;" : String).data ("<b>" : String).data A
      (w ++ (("&lt;/b&gt;" : String).data ++ B)) _ obData hAamp
    have h2 := replaceSub_OB_mid ("<b>" : String).data w B hwamp hBamp
    rw [h2] at h1
    simpa [List.append_assoc] using h1
  rw [e1]
  have e2 : replaceSub ("&lt;/b&gt;" : String).data ("</b>" : String).data
      (A ++ ("<b>" : String).data ++ w ++ ("&lt;/b&gt;" : String).data ++ B)
      = A ++ ("<b>" : String).data ++ w ++ ("</b>" : String).data ++ B := by
    have hpre : '&' ∉ A ++ ("<b>" : String).data ++ w := by
      intro hm
      rcases List.mem_append.mp hm with hm1 | hm2
      · rcases List.mem_append.mp hm1 with hm3 | hm4
        · exact hAamp hm3
        · simp at hm4
      · exact hwamp hm2
    have h1 := replaceSub_pre ("&lt;/b&gt;" : String).data ("</b>" : String).data
      (A ++ ("<b>" : String).data ++ w) B _ cbData hpre
    rw [replaceSub_amp_free _ _ B _ cbData hBamp] at h1
    simpa [List.append_assoc] using h1
  rw [e2]

/-! ### The rendering the spec asserts (claim side, for C6) -/

/-- Modelled from the spec (4.2): the window is first truncated to the
maximum length with the truncation marker appended if exceeded (the same
truncation step the code applies, but here before any marking); then the
keyword occurrence inside it is wrapped in the emphasis marker and all other
snippet text is escaped for the markup language — no re-enabling of
source-text marker sequences. -/
def specSnippet (ctx k : List Char) (ml : Nat) : List Char :=
  match strFind (pyLower (fcTrunc ctx ml)) k with
  | some ki =>
      htmlEscape ((fcTrunc ctx ml).take ki) ++ "<b>".data
        ++ ((fcTrunc ctx ml).drop ki).take k.length ++ "</b>".data
        ++ htmlEscape ((fcTrunc ctx ml).drop (ki + k.length))
  | none => htmlEscape (fcTrunc ctx ml)

/-- The spec rendering lifted over the first-match scan of the extractor. -/
def specScan (raw low : List Char) (cc ml : Nat) :
    List (List Char) → Option (List Char × List Char)
  | [] => none
  | kw :: rest =>
    match strFind low (pyLower kw) with
    | none => specScan raw low cc ml rest
    | some idx => some (kw, specSnippet (fcWindow raw (pyLower kw) idx cc) (pyLower kw) ml)

/-- The context extractor as the claim describes it: same scan, window and
sentinel fallback, but truncating before marking and escaping every
non-keyword snippet character. -/
def spec_find_context (title summary : String) (keywords : List String)
    (context_chars max_len : Nat) : String × String :=
  match specScan (pyStrip summary.data) (pyLower (pyStrip summary.data))
      context_chars max_len (keywords.map String.data) with
  | some (kw, ctx) => (String.mk kw, String.mk ctx)
  | none =>
    match keywords.find? (fun kw => pyContains (pyLower title.data) (pyLower kw.data)) with
    | some kw => (kw, "(ver título)")
    | none => ("", "")

theorem fcTrunc_id (ctx : List Char) (ml : Nat) (h : ctx.length ≤ ml) :
    fcTrunc ctx ml = ctx := by
  unfold fcTrunc
  rw [if_neg (by omega)]

/-- On a window free of markup characters whose marked form fits under the
truncation bound, the code's snippet equals the spec's snippet (and the
spec's truncation step is a no-op there). -/
theorem code_snippet_eq_spec (ctx k : List Char) (ml : Nat)
    (hclean : ∀ c ∈ ctx, c ≠ '&' ∧ c ≠ '<' ∧ c ≠ '>')
    (hlen : ctx.length + 7 ≤ ml) :
    fcEscape (fcTrunc (fcMarkup ctx k) ml) = specSnippet ctx k ml := by
  have hct : fcTrunc ctx ml = ctx := fcTrunc_id _ _ (by omega)
  cases hki : strFind (pyLower ctx) k with
  | none =>
    have hm : fcMarkup ctx k = ctx := by
      unfold fcMarkup
      rw [hki]
    have hs : specSnippet ctx k ml = htmlEscape ctx := by
      unfold specSnippet
      rw [hct, hki]
    rw [hm, hs, fcTrunc_id _ _ (by omega), htmlEscape_clean ctx hclean]
    exact fcEscape_clean ctx hclean
  | some ki =>
    have hm : fcMarkup ctx k
        = ctx.take ki ++ "<b>".data ++ (ctx.drop ki).take k.length ++ "</b>".data
          ++ ctx.drop (ki + k.length) := by
      unfold fcMarkup
      rw [hki]
    have hs : specSnippet ctx k ml
        = htmlEscape (ctx.take ki) ++ "<b>".data ++ (ctx.drop ki).take k.length
          ++ "</b>".data ++ htmlEscape (ctx.drop (ki + k.length)) := by
      unfold specSnippet
      rw [hct, hki]
    have hbound := strFind_eq_some hki
    have hklen : k.length ≤ ctx.length - ki := by
      have h1 := (List.isPrefixOf_iff_prefix.mp hbound.1).length_le
      simp only [List.length_drop] at h1
      have h2 : (pyLower ctx).length = ctx.length := by
        unfold pyLower
        exact List.length_map _ _
      omega
    have hki' : ki ≤ ctx.length := by
      have h2 : (pyLower ctx).length = ctx.length := by
        unfold pyLower
        exact List.length_map _ _
      omega
    have hA : ∀ c ∈ ctx.take ki, c ≠ '&' ∧ c ≠ '<' ∧ c ≠ '>' :=
      fun c hc => hclean c (List.take_subset _ _ hc)
    have hw : ∀ c ∈ (ctx.drop ki).take k.length, c ≠ '&' ∧ c ≠ '<' ∧ c ≠ '>' :=
      fun c hc => hclean c (List.drop_subset _ _ (List.take_subset _ _ hc))
    have hB : ∀ c ∈ ctx.drop (ki + k.length), c ≠ '&' ∧ c ≠ '<' ∧ c ≠ '>' :=
      fun c hc => hclean c (List.drop_subset _ _ hc)
    have hmlen : (ctx.take ki ++ "<b>".data ++ (ctx.drop ki).take k.length
        ++ "</b>".data ++ ctx.drop (ki + k.length)).length = ctx.length + 7 := by
      simp only [List.length_append, List.length_take, List.length_drop]
      have hob : ("<b>" : String).data.length = 3 := by decide
      have hcb : ("</b>" : String).data.length = 4 := by decide
      rw [hob, hcb]
      omega
    rw [hm, hs]
    rw [fcTrunc_id _ _ (by omega)]
    rw [fcEscape_marked _ _ _ hA hw hB]
    rw [htmlEscape_clean _ hA, htmlEscape_clean _ hB]

/-! ### C6: snippet escaping -/

/-- C6 counterexample, two divergences from the claimed rendering. First, a
summary containing the literal markup sequence inside the window: the
escape-then-replace of line 294 re-enables it, so source markup survives
verbatim instead of being escaped. Second, a clean fourteen-character window
with max length 15: the code truncates after inserting the markers (the spec
truncates the window first), cutting the closing emphasis marker, which
escaping then mangles — the keyword is no longer wrapped. -/
theorem C6_injection_cex :
    ((find_context "t" "<b>x</b> camara fim" ["camara"] 50 200).2
        ≠ (spec_find_context "t" "<b>x</b> camara fim" ["camara"] 50 200).2
      ∧ (find_context "t" "<b>x</b> camara fim" ["camara"] 50 200).2
        = "<b>x</b> <b>camara</b> fim")
    ∧ ((find_context "t" "abc camara xyz" ["camara"] 20 15).2
        ≠ (spec_find_context "t" "abc camara xyz" ["camara"] 20 15).2
      ∧ (find_context "t" "abc camara xyz" ["camara"] 20 15).2
        = "abc <b>camara&lt;/…") := by decide

/-- C6 amended: consider a delivery message whose snippet comes from a
keyword hit — the first occurrence, at index idx, of the first matching
keyword of the declared order. Whenever the window extracted around that hit
contains none of the markup characters (ampersand, less-than, greater-than)
and the window plus the seven marker characters fits within the configured
maximum snippet length, the rendered snippet equals the spec rendering of
that window: the matched keyword occurrence is wrapped in the emphasis
marker and all other snippet text is escaped, the spec truncation step being
a no-op there. Outside these two conditions the code diverges: literal bold
marker sequences in source text are re-enabled as markup after escaping, and
truncation is applied after marking rather than before, so it can cut the
closing marker (see the counterexample for both). -/
theorem C6_escaped_on_clean_window :
    ∀ (title summary : String) (keywords : List String) (cc maxLen : Nat)
      (pre post : List String) (kw : String) (idx : Nat),
      keywords = pre ++ kw :: post →
      (∀ k ∈ pre, pyContains (pyLower (pyStrip summary.data)) (pyLower k.data) = false) →
      strFind (pyLower (pyStrip summary.data)) (pyLower kw.data) = some idx →
      (∀ c ∈ fcWindow (pyStrip summary.data) (pyLower kw.data) idx cc,
          c ≠ '&' ∧ c ≠ '<' ∧ c ≠ '>') →
      (fcWindow (pyStrip summary.data) (pyLower kw.data) idx cc).length + 7 ≤ maxLen →
      (find_context title summary keywords cc maxLen).2
        = String.mk (specSnippet (fcWindow (pyStrip summary.data) (pyLower kw.data) idx cc)
            (pyLower kw.data) maxLen) := by
  intro title summary keywords cc maxLen pre post kw idx hkws hpre hidx hclean hfit
  subst hkws
  have hpre' : ∀ k ∈ pre.map String.data,
      strFind (pyLower (pyStrip summary.data)) (pyLower k) = none := by
    intro k hk
    rcases List.mem_map.mp hk with ⟨k0, hk0, rfl⟩
    exact pyContains_false_strFind (hpre k0 hk0)
  have hscan := fcScan_first (pyStrip summary.data) (pyLower (pyStrip summary.data))
    cc maxLen (pre.map String.data) (post.map String.data) kw.data idx hpre' hidx
  unfold find_context
  rw [show (pre ++ kw :: post).map String.data
        = pre.map String.data ++ kw.data :: post.map String.data from by simp]
  rw [hscan]
  exact congrArg String.mk
    (code_snippet_eq_spec (fcWindow (pyStrip summary.data) (pyLower kw.data) idx cc)
      (pyLower kw.data) maxLen hclean hfit)

/-- Witness for C6 at a concrete input whose window is clean and fits: the
code snippet equals the spec rendering of the window. -/
theorem C6_witness :
    (find_context "t" "projeto da camara aprovado" ["camara"] 10 200).2
      = String.mk (specSnippet
          (fcWindow (pyStrip ("projeto da camara aprovado" : String).data)
            (pyLower ("camara" : String).data) 11 10)
          (pyLower ("camara" : String).data) 200) :=
  C6_escaped_on_clean_window "t" "projeto da camara aprovado" ["camara"] 10 200
    [] [] "camara" 11 rfl (by simp) (by decide) (by decide) (by decide)

/-! ### C1: ranking -/

theorem sortRel_trans {a b c : RItem} (h1 : sortRel a b) (h2 : sortRel b c) :
    sortRel a c := by
  unfold sortRel at *
  rcases h1 with h1 | ⟨h1e, h1s⟩
  · rcases h2 with h2 | ⟨h2e, h2s⟩
    · exact Or.inl (lt_trans h2 h1)
    · exact Or.inl (by omega)
  · rcases h2 with h2 | ⟨h2e, h2s⟩
    · exact Or.inl (by omega)
    · exact Or.inr ⟨by omega, le_trans h2s h1s⟩

theorem sortRel_total (a b : RItem) : sortRel a b ∨ sortRel b a := by
  unfold sortRel
  rcases Nat.lt_trichotomy (sortKey b).1 (sortKey a).1 with h | h | h
  · exact Or.inl (Or.inl h)
  · rcases le_total (sortKey b).2 (sortKey a).2 with hs | hs
    · exact Or.inl (Or.inr ⟨h, hs⟩)
    · exact Or.inr (Or.inr ⟨h.symm, hs⟩)
  · exact Or.inr (Or.inl h)

instance : IsTrans RItem sortRel := ⟨fun _ _ _ => sortRel_trans⟩

instance : IsTotal RItem sortRel := ⟨sortRel_total⟩

/-- The recency key the claim asserts as primary: a known timestamp always
beats the unknown one, which sorts as the oldest possible value. -/
def specRecKey (it : RItem) : Bool × String :=
  match it.published_at with
  | some p => (true, p)
  | none => (false, "")

/-- Strict lexicographic comparison of character lists by code point — the
order of Python (and Lean) strings, written out so that it evaluates. -/
def strLexLtB : List Char → List Char → Bool
  | [], [] => false
  | [], _ :: _ => true
  | _ :: _, [] => false
  | a :: as, b :: bs => if a < b then true else if b < a then false else strLexLtB as bs

/-- The composite order asserted by the claim: primary timestamp recency
(with the unknown timestamp oldest), secondary relevance descending.
specRecGE a b holds when a may precede b under that order. -/
def specRecGE (a b : RItem) : Bool :=
  (!(specRecKey b).1 && (specRecKey a).1)
  || ((specRecKey b).1 == (specRecKey a).1
        && strLexLtB (specRecKey b).2.data (specRecKey a).2.data)
  || (specRecKey b == specRecKey a && decide (b.relevance ≤ a.relevance))

def c1a : RItem :=
  { id := "a", title := "A", link := "l", source := "s", source_type := "rss",
    published_at := some "2025-01-02T00:00:00+00:00", published_brt := "",
    kw := "", ctx := "", relevance := 0 }

def c1b : RItem :=
  { id := "b", title := "B", link := "l", source := "s", source_type := "rss",
    published_at := some "2025-01-01T00:00:00+00:00", published_brt := "",
    kw := "", ctx := "", relevance := 5 }

/-- C1 counterexample: the line 692 sort does not use timestamp recency as
the primary key. A zero-relevance item published one day later than a
five-relevance item ends up after it, so the merged output is not ordered by
the claimed recency-primary composite key. -/
theorem C1_recency_not_primary_cex :
    ¬ ∀ (l : List RItem), (sortRun l).Pairwise (fun a b => specRecGE a b = true) := by
  intro h
  have h2 := h [c1a, c1b]
  revert h2
  decide

/-- C1 amended: the line 692 sort orders every merged list by the composite
key (relevance, published_at string with unknown as the empty string and
hence oldest), primary relevance descending and secondary timestamp
descending; it
is a permutation of the input; and it is stable — two items with equal keys
keep their enumeration order. -/
theorem C1_relevance_primary_stable :
    (∀ l : List RItem, (sortRun l).Pairwise sortRel)
    ∧ (∀ l : List RItem, (sortRun l).Perm l)
    ∧ (∀ (l : List RItem) (a b : RItem),
        sortKey a = sortKey b → [a, b].Sublist l → [a, b].Sublist (sortRun l)) := by
  refine ⟨?_, ?_, ?_⟩
  · intro l
    exact List.sorted_insertionSort sortRel l
  · intro l
    exact List.perm_insertionSort sortRel l
  · intro l a b hk hsub
    apply List.pair_sublist_insertionSort _ hsub
    unfold sortRel
    rw [hk]
    exact Or.inr ⟨rfl, le_refl _⟩

def c1c : RItem :=
  { id := "c", title := "C", link := "l", source := "s", source_type := "rss",
    published_at := some "2025-01-01T00:00:00+00:00", published_brt := "",
    kw := "", ctx := "", relevance := 2 }

def c1d : RItem :=
  { id := "d", title := "D", link := "l", source := "s", source_type := "rss",
    published_at := some "2025-01-01T00:00:00+00:00", published_brt := "",
    kw := "", ctx := "", relevance := 2 }

/-- Witness for C1 at concrete inputs: two items with identical sort keys
stay in enumeration order through the sort. -/
theorem C1_witness :
    (sortRun [c1c, c1d]).Pairwise sortRel
    ∧ (sortRun [c1c, c1d]).Perm [c1c, c1d]
    ∧ [c1c, c1d].Sublist (sortRun [c1c, c1d]) :=
  ⟨C1_relevance_primary_stable.1 [c1c, c1d],
   C1_relevance_primary_stable.2.1 [c1c, c1d],
   C1_relevance_primary_stable.2.2 [c1c, c1d] c1c c1d (by decide) (List.Sublist.refl _)⟩

/-! ### C8: the context extractor contract -/

/-- C8: scanning in declared order, the first keyword with a case-insensitive
occurrence in the normalized summary becomes the matched keyword; at its
first occurrence index the extracted window is clipped to bounds and spans at
most radius + keyword length + radius characters, and the marked window
(before the truncation-marker logic) contains the keyword wrapped in the bold
emphasis marker; when no keyword occurs in the summary but one occurs in the
title, the first such keyword is returned with the sentinel snippet instead
of a window. -/
theorem C8_context_extractor :
    (∀ (title summary : String) (keywords : List String) (cc maxLen : Nat)
        (pre post : List String) (kw : String),
        keywords = pre ++ kw :: post →
        (∀ k ∈ pre, pyContains (pyLower (pyStrip summary.data)) (pyLower k.data) = false) →
        pyContains (pyLower (pyStrip summary.data)) (pyLower kw.data) = true →
        (find_context title summary keywords cc maxLen).1 = kw
        ∧ ∃ idx, strFind (pyLower (pyStrip summary.data)) (pyLower kw.data) = some idx
            ∧ (fcWindow (pyStrip summary.data) (pyLower kw.data) idx cc).length
                ≤ cc + kw.length + cc
            ∧ ∃ w, pyLower w = pyLower kw.data
                ∧ ∃ s t, s ++ ("<b>".data ++ w ++ "</b>".data) ++ t
                    = fcMarkup (fcWindow (pyStrip summary.data) (pyLower kw.data) idx cc)
                        (pyLower kw.data))
    ∧ (∀ (title summary : String) (keywords : List String) (cc maxLen : Nat)
        (pre post : List String) (kw : String),
        keywords = pre ++ kw :: post →
        (∀ k ∈ keywords, pyContains (pyLower (pyStrip summary.data)) (pyLower k.data) = false) →
        (∀ k ∈ pre, pyContains (pyLower title.data) (pyLower k.data) = false) →
        pyContains (pyLower title.data) (pyLower kw.data) = true →
        find_context title summary keywords cc maxLen = (kw, "(ver título)")) := by
  constructor
  · intro title summary keywords cc maxLen pre post kw hkws hpre hkw
    subst hkws
    rcases Option.isSome_iff_exists.mp hkw with ⟨idx, hidx⟩
    have hpre' : ∀ k ∈ pre.map String.data,
        strFind (pyLower (pyStrip summary.data)) (pyLower k) = none := by
      intro k hk
      rcases List.mem_map.mp hk with ⟨k0, hk0, rfl⟩
      exact pyContains_false_strFind (hpre k0 hk0)
    have hscan := fcScan_first (pyStrip summary.data) (pyLower (pyStrip summary.data))
      cc maxLen (pre.map String.data) (post.map String.data) kw.data idx hpre' hidx
    constructor
    · unfold find_context
      rw [show (pre ++ kw :: post).map String.data
            = pre.map String.data ++ kw.data :: post.map String.data from by simp]
      rw [hscan]
    · refine ⟨idx, hidx, ?_, ?_⟩
      · have := fcWindow_length (pyStrip summary.data) (pyLower kw.data) idx cc
        have hlen : (pyLower kw.data).length = kw.length := by
          unfold pyLower
          rw [List.length_map]
          rfl
        omega
      · apply fcMarkup_emphasis
        rw [pyLower_fcWindow]
        exact fcWindow_contains (pyLower (pyStrip summary.data)) (pyLower kw.data) idx cc
          (strFind_eq_some hidx).1
  · intro title summary keywords cc maxLen pre post kw hkws hnone hpre hkw
    subst hkws
    have hnone' : ∀ k ∈ (pre ++ kw :: post).map String.data,
        strFind (pyLower (pyStrip summary.data)) (pyLower k) = none := by
      intro k hk
      rcases List.mem_map.mp hk with ⟨k0, hk0, rfl⟩
      exact pyContains_false_strFind (hnone k0 hk0)
    have hscan := fcScan_none (pyStrip summary.data) (pyLower (pyStrip summary.data))
      cc maxLen ((pre ++ kw :: post).map String.data) hnone'
    unfold find_context
    rw [hscan]
    have hfind := find?_first (fun k => pyContains (pyLower title.data) (pyLower k.data))
      pre post kw (fun a ha => hpre a ha) hkw
    rw [hfind]

/-- Witness for C8 at the spec's example: body about the câmara with radius
10 yields the câmara keyword, a window of at most 10+6+10 characters
containing the emphasized keyword; and a title-only match yields the
sentinel snippet. -/
theorem C8_witness :
    ((find_context "t" "O projeto foi aprovado pela câmara em sessão histórica"
          ["câmara"] 10 200).1 = "câmara"
      ∧ ∃ idx, strFind
            (pyLower (pyStrip ("O projeto foi aprovado pela câmara em sessão histórica" : String).data))
            (pyLower ("câmara" : String).data) = some idx
          ∧ (fcWindow (pyStrip ("O projeto foi aprovado pela câmara em sessão histórica" : String).data)
                (pyLower ("câmara" : String).data) idx 10).length
              ≤ 10 + ("câmara" : String).length + 10
          ∧ ∃ w, pyLower w = pyLower ("câmara" : String).data
              ∧ ∃ s t, s ++ ("<b>".data ++ w ++ "</b>".data) ++ t
                  = fcMarkup
                      (fcWindow (pyStrip ("O projeto foi aprovado pela câmara em sessão histórica" : String).data)
                        (pyLower ("câmara" : String).data) idx 10)
                      (pyLower ("câmara" : String).data))
    ∧ find_context "Sessão na câmara" "nada a ver" ["câmara"] 10 200
        = ("câmara", "(ver título)") :=
  ⟨C8_context_extractor.1 "t" "O projeto foi aprovado pela câmara em sessão histórica"
      ["câmara"] 10 200 [] [] "câmara" rfl (by simp) (by decide),
   C8_context_extractor.2 "Sessão na câmara" "nada a ver" ["câmara"] 10 200 [] [] "câmara"
      rfl (by decide) (by simp) (by decide)⟩

/-- C5: get_sent_titles_today computes the day start by zeroing only the
hour, minute and second fields, keeping the microsecond of the current
instant; a title sent one microsecond after midnight of the same calendar day
is therefore missing from the comparison set of a run started at noon with a
500-microsecond fraction. -/
theorem C5_same_day_title_excluded :
    c5rec.sent_at / usecPerDay = c5now / usecPerDay
    ∧ c5rec.sent_at < c5now
    ∧ c5rec.title ∉ get_sent_titles_today [c5rec] c5now := by decide

end TNB
